import Mathlib

/-!
Verification of the npm-package risk-audit backend (round_2/backend).

This file is a shallow embedding, in Lean 4, of the pure logic of the
backend services: risk scoring (services/scoring.py), OSV semver range
matching (services/osv_client.py), the TTL cache (services/osv_client.py
and services/github_client.py), typosquatting detection
(utils/typosquat.py, services/analyzer.py) and install-script analysis
(utils/patterns.py, services/analyzer.py).

Python float handling: the overall-score accumulation of
calculate_risk_score is embedded as a faithful binary64 model (scaled
integers with round-to-nearest-even to 53 significant bits after every
product and sum; see the section on floatTotalS), because its rounding
is observable in the final int score.  The remaining float constants
(radar severity weights in twentieths, the similarity threshold 0.80)
only feed comparisons and an exact zero test whose outcomes agree with
exact arithmetic, and are embedded as exact rational or scaled
natural-number arithmetic; each definition carries a note where the
scaling happens.  Python int() truncation on nonnegative values is
embedded as natural-number division or Nat.floor.
-/

set_option maxRecDepth 100000

namespace Vibe

/-- Severity enum from models/response.py. -/
inductive Severity where
  | critical
  | high
  | medium
  | low
  | info
  deriving DecidableEq

/-- Category enum from models/response.py. -/
inductive Category where
  | authenticity
  | maintenance
  | security
  | reputation
  deriving DecidableEq

/-- RiskFactor model from models/response.py: an individual finding. -/
structure RiskFactor where
  name : String
  severity : Severity
  description : String
  details : Option String
  category : Category
  deriving DecidableEq

/-- RadarScores model from models/response.py. -/
structure RadarScores where
  authenticity : ℕ
  maintenance : ℕ
  security : ℕ
  reputation : ℕ
  deriving DecidableEq

/-- severity_points table inside calculate_risk_score (services/scoring.py). -/
def severityPoints : Severity → ℕ
  | .critical => 25
  | .high => 15
  | .medium => 8
  | .low => 3
  | .info => 0

/-- The mathematical values of CATEGORY_MULTIPLIERS (services/scoring.py)
scaled by 10 so they stay in ℕ: 1.5, 1.5, 1.0, 0.8 become 15, 15, 10, 8
tenths.  This is the spec-side idealisation of the multipliers; the
program stores them as binary64 floats (multS below), and 0.8 is not
exactly representable there.  All four enum values are keys, so the
.get default 1.0 of the source is never used. -/
def categoryMultiplierTenths : Category → ℕ
  | .authenticity => 15
  | .security => 15
  | .maintenance => 10
  | .reputation => 8

/-- The mathematical values of CATEGORY_MULTIPLIERS as exact rationals
(spec-side idealisation, see categoryMultiplierTenths). -/
def categoryMultiplierQ : Category → ℚ
  | .authenticity => 3 / 2
  | .security => 3 / 2
  | .maintenance => 1
  | .reputation => 4 / 5

/-- Membership in HIGH_RISK_CATEGORIES (services/scoring.py). -/
def isHighRisk : Category → Bool
  | .authenticity => true
  | .security => true
  | .maintenance => false
  | .reputation => false

/-- The exact mathematical total the spec describes, in tenths of a
point: the sum over factors of base_points * multiplier with the ideal
multiplier values.  This is a spec-side definition kept for comparison;
the program accumulates binary64 floats (floatTotalS below) and can
deviate from this exact total through rounding. -/
def riskTotalTenths (fs : List RiskFactor) : ℕ :=
  (fs.map (fun f => severityPoints f.severity * categoryMultiplierTenths f.category)).sum

/-- The same exact mathematical total as a rational, in points
(spec-side, see riskTotalTenths). -/
def riskExactSum (fs : List RiskFactor) : ℚ :=
  (fs.map (fun f => (severityPoints f.severity : ℚ) * categoryMultiplierQ f.category)).sum

/-- The has_critical_high_risk flag computed by calculate_risk_score
(services/scoring.py): some factor is critical and in a high-risk
category. -/
def hasCriticalHighRisk (fs : List RiskFactor) : Bool :=
  fs.any (fun f => decide (f.severity = Severity.critical) && isHighRisk f.category)

/-! ### Binary64 model of the float accumulation of calculate_risk_score

The source accumulates `total += base_points * multiplier` in Python
floats (IEEE-754 binary64).  Every value arising in that loop is a
nonnegative integer multiple of 2 ^ (-52): the multipliers are the
binary64 values of 1.5, 1.0 and 0.8 (the last being
3602879701896397 / 2 ^ 52, the double nearest to 0.8), the base points
are small integers, and binary64 products and sums of such values
remain multiples of 2 ^ (-52) after rounding to 53 significant bits.
The model therefore represents every float as the natural number
value * 2 ^ 52, makes each product and sum exact on these scaled
integers, and applies round-to-nearest-even to 53 significant bits
after each operation, exactly as the hardware does.  Overflow to
infinity (reached only beyond about 4 * 10 ^ 306 findings) is not
modelled.  This scaled model was checked to agree bit-for-bit with
CPython float arithmetic on the operations it models. -/

/-- Number of binary digits of n (0 for 0), via a structurally
decreasing fuel so that it reduces definitionally. -/
def bitLenAux : ℕ → ℕ → ℕ
  | 0, _ => 0
  | fuel + 1, n => if n = 0 then 0 else bitLenAux fuel (n / 2) + 1

/-- Number of binary digits of n: the unique L with
2 ^ (L - 1) ≤ n < 2 ^ L for n > 0, and 0 for 0. -/
def bitLen (n : ℕ) : ℕ := bitLenAux n n

/-- IEEE-754 round-to-nearest, ties to even, to 53 significant bits, on
the scaled integers: the scaled value keeps at most its top 53 binary
digits, the rest rounds away. -/
def roundS (u : ℕ) : ℕ :=
  if bitLen u ≤ 53 then u
  else
    let s := bitLen u - 53
    let q := u / 2 ^ s
    let r := u % 2 ^ s
    let half := 2 ^ (s - 1)
    let q2 := if r < half then q
              else if half < r then q + 1
              else if q % 2 = 0 then q else q + 1
    q2 * 2 ^ s

/-- CATEGORY_MULTIPLIERS as the program stores them: the binary64
values of 1.5, 1.5, 1.0 and 0.8, scaled by 2 ^ 52.  1.5 and 1.0 are
exact; the double nearest to 0.8 is 3602879701896397 / 2 ^ 52. -/
def multS : Category → ℕ
  | .authenticity => 3 * 2 ^ 51
  | .security => 3 * 2 ^ 51
  | .maintenance => 2 ^ 52
  | .reputation => 3602879701896397

/-- One loop iteration product base_points * multiplier of
calculate_risk_score, as the binary64 multiplication of the exact small
integer by the stored multiplier (scaled by 2 ^ 52). -/
def contribS (f : RiskFactor) : ℕ :=
  roundS (severityPoints f.severity * multS f.category)

/-- The float accumulation total of calculate_risk_score
(services/scoring.py), scaled by 2 ^ 52: total starts at 0.0 and each
iteration adds the rounded product with binary64 addition. -/
def floatTotalS (fs : List RiskFactor) : ℕ :=
  fs.foldl (fun acc f => roundS (acc + contribS f)) 0

/-- calculate_risk_score (services/scoring.py): min(100, int(total))
together with the flag.  The float total is nonnegative, so the int()
truncation is the floor, i.e. dividing the scaled total by 2 ^ 52. -/
def calculate_risk_score (fs : List RiskFactor) : ℕ × Bool :=
  (min 100 (floatTotalS fs / 2 ^ 52), hasCriticalHighRisk fs)

/-- get_risk_level (services/scoring.py).  The score argument is an int
in the source; calculate_risk_score only ever produces values in
[0, 100], so ℕ is used here. -/
def get_risk_level (score : ℕ) (has_critical_high_risk : Bool) : String :=
  if has_critical_high_risk = true ∧ score < 51 then "high"
  else if 76 ≤ score then "critical"
  else if 51 ≤ score then "high"
  else if 26 ≤ score then "medium"
  else "low"

/-- severity_weight table of calculate_radar_scores (services/scoring.py),
scaled by 20 so the values stay in ℕ: the source constants
0.5, 0.3, 0.15, 0.05, 0 become 10, 6, 3, 1, 0 twentieths. -/
def severityWeight20 : Severity → ℕ
  | .critical => 10
  | .high => 6
  | .medium => 3
  | .low => 1
  | .info => 0

/-- The per-category accumulated weight of calculate_radar_scores
(services/scoring.py), in twentieths.  The sums of the source are sums
of multiples of 0.05; a per-category weight is zero exactly when every
finding of the category has weight zero, so the zero test of the source
is exact as well. -/
def categoryWeight20 (fs : List RiskFactor) (c : Category) : ℕ :=
  (fs.map (fun f => if f.category = c then severityWeight20 f.severity else 0)).sum

/-- int(100 * decay_base ** weight) of calculate_radar_scores
(services/scoring.py) with decay_base = 0.5 and weight = k / 20,
computed exactly: for x = 100 * 2 ^ (-k/20) we have, for n : ℕ,
n ≤ x ↔ n ^ 20 * 2 ^ k ≤ 100 ^ 20, so the floor of x is the greatest
such n ≤ 100.  (pow20floorFloor below proves this characterisation.) -/
def pow20floor (k : ℕ) : ℕ :=
  Nat.findGreatest (fun n => n ^ 20 * 2 ^ k ≤ 100 ^ 20) 100

/-- One category score of calculate_radar_scores (services/scoring.py):
100 when the accumulated weight is zero, otherwise
max(5, int(100 * 0.5 ** weight)). -/
def radarScore (k : ℕ) : ℕ :=
  if k = 0 then 100 else max 5 (pow20floor k)

/-- calculate_radar_scores (services/scoring.py). -/
def calculate_radar_scores (fs : List RiskFactor) : RadarScores :=
  { authenticity := radarScore (categoryWeight20 fs .authenticity)
    maintenance := radarScore (categoryWeight20 fs .maintenance)
    security := radarScore (categoryWeight20 fs .security)
    reputation := radarScore (categoryWeight20 fs .reputation) }

/-! ## services/osv_client.py: semver parsing and range matching -/

/-- Leading-whitespace strip, on character lists. -/
def dropLeadingWs (l : List Char) : List Char :=
  l.dropWhile Char.isWhitespace

/-- Trailing-whitespace strip, on character lists. -/
def dropTrailingWs : List Char → List Char
  | [] => []
  | c :: cs =>
    match dropTrailingWs cs with
    | [] => if c.isWhitespace then [] else [c]
    | cs' => c :: cs'

/-- Python str.strip(): remove leading and trailing whitespace. -/
def stripChars (l : List Char) : List Char :=
  dropTrailingWs (dropLeadingWs l)

/-- Value of a digit run, as in int() on a capture of consecutive digits. -/
def digitsVal (ds : List Char) : ℕ :=
  ds.foldl (fun acc c => 10 * acc + (c.toNat - 48)) 0

/-- parse_semver (services/osv_client.py): match the anchored prefix
regex (\d+)\.(\d+)\.(\d+) against the stripped input and return the
three captured numbers; on no match return (0, 0, 0).  The regex is
anchored at the start, so nothing may precede the first digit, and
arbitrary text may follow the third group. -/
def parse_semver (s : String) : ℕ × ℕ × ℕ :=
  let cs := stripChars s.toList
  let d1 := cs.takeWhile Char.isDigit
  let r1 := cs.dropWhile Char.isDigit
  if d1 = [] then (0, 0, 0)
  else
    match r1 with
    | '.' :: r2 =>
      let d2 := r2.takeWhile Char.isDigit
      let r3 := r2.dropWhile Char.isDigit
      if d2 = [] then (0, 0, 0)
      else
        match r3 with
        | '.' :: r4 =>
          let d3 := r4.takeWhile Char.isDigit
          if d3 = [] then (0, 0, 0)
          else (digitsVal d1, digitsVal d2, digitsVal d3)
        | _ => (0, 0, 0)
    | _ => (0, 0, 0)

/-- Strict lexicographic order on version triples, as Python compares
3-tuples of ints with <. -/
def semverLtP (x y : ℕ × ℕ × ℕ) : Prop :=
  x.1 < y.1 ∨ (x.1 = y.1 ∧ (x.2.1 < y.2.1 ∨ (x.2.1 = y.2.1 ∧ x.2.2 < y.2.2)))

instance (x y : ℕ × ℕ × ℕ) : Decidable (semverLtP x y) := by
  unfold semverLtP
  infer_instance

/-- Lexicographic order-or-equal on version triples, as Python <=. -/
def semverLeP (x y : ℕ × ℕ × ℕ) : Prop :=
  semverLtP x y ∨ x = y

instance (x y : ℕ × ℕ × ℕ) : Decidable (semverLeP x y) := by
  unfold semverLeP
  infer_instance

/-- Python truthiness of an optional string: present and nonempty. -/
def truthy : Option String → Bool
  | none => false
  | some s => s ≠ ""

/-- version_in_range (services/osv_client.py).  The source computes the
introduced bound as parse_semver(introduced) unless introduced is falsy
or the literal string 0, in which case it uses (0,0,0); the branches on
fixed and last_affected use Python truthiness. -/
def version_in_range (version introduced : String)
    (fixed last_affected : Option String) : Bool :=
  let v := parse_semver version
  let intro := if introduced ≠ "" ∧ introduced ≠ "0" then parse_semver introduced
               else (0, 0, 0)
  if semverLtP v intro then false
  else if truthy last_affected then
    decide (semverLeP v (parse_semver (last_affected.getD "")))
  else if truthy fixed then
    decide (semverLtP v (parse_semver (fixed.getD "")))
  else true

/-- One OSV event object: a JSON dict that may carry any of the three
keys; the source reads each key if present. -/
structure OsvEvent where
  introduced : Option String
  fixed : Option String
  last_affected : Option String

/-- One OSV range object: its type string and its events list. -/
structure OsvRange where
  type : String
  events : List OsvEvent

/-- One OSV affected object: the package ecosystem and the ranges. -/
structure OsvAffected where
  ecosystem : String
  ranges : List OsvRange

/-- An OSV vulnerability record, reduced to the fields that
is_version_affected reads. -/
structure OsvVuln where
  affected : List OsvAffected

/-- The event fold of is_version_affected (services/osv_client.py): the
loop over events keeps the last value seen for each of the three keys. -/
def foldEvents (events : List OsvEvent) :
    Option String × Option String × Option String :=
  events.foldl
    (fun acc e =>
      ((e.introduced.elim acc.1 some),
       (e.fixed.elim acc.2.1 some),
       (e.last_affected.elim acc.2.2 some)))
    (none, none, none)

/-- Whether one OSV range matches, per the body of the range loop of
is_version_affected: the range type must be SEMVER, some event must have
set introduced, and version_in_range must hold. -/
def rangeMatches (version : String) (r : OsvRange) : Bool :=
  if r.type = "SEMVER" then
    let acc := foldEvents r.events
    match acc.1 with
    | none => false
    | some intro => version_in_range version intro acc.2.1 acc.2.2
  else false

/-- is_version_affected (services/osv_client.py): an empty version is
assumed affected; otherwise some npm affected entry must contain a
matching SEMVER range. -/
def is_version_affected (version : String) (vuln : OsvVuln) : Bool :=
  if version = "" then true
  else
    vuln.affected.any (fun aff =>
      decide (aff.ecosystem = "npm") &&
      aff.ranges.any (fun r => rangeMatches version r))

/-! ## TTLCache (services/osv_client.py and services/github_client.py) -/

/-- The TTLCache of osv_client.py and github_client.py (the two classes
are line-for-line the same logic): a map from keys to value-timestamp
pairs plus a ttl.  Wall-clock time (datetime.now()) is passed explicitly
to each operation; timestamps and the ttl are integers (seconds). -/
structure TTLCache (α : Type) where
  cache : String → Option (α × ℤ)
  ttl : ℤ

/-- TTLCache.__init__: empty map, configured ttl (default 3600 at both
call sites). -/
def TTLCache.init (α : Type) (ttl : ℤ) : TTLCache α :=
  ⟨fun _ => none, ttl⟩

/-- TTLCache.get: return the stored value if its age is strictly below
the ttl; an expired entry is deleted by this very lookup, and the method
returns the possibly-updated cache alongside the result. -/
def TTLCache.get (st : TTLCache α) (key : String) (now : ℤ) :
    Option α × TTLCache α :=
  match st.cache key with
  | none => (none, st)
  | some (v, ts) =>
    if now - ts < st.ttl then (some v, st)
    else (none, ⟨fun k => if k = key then none else st.cache k, st.ttl⟩)

/-- TTLCache.set: store the value under the key with the current time as
its timestamp, overwriting any previous entry for the key. -/
def TTLCache.set (st : TTLCache α) (key : String) (v : α) (now : ℤ) :
    TTLCache α :=
  ⟨fun k => if k = key then some (v, now) else st.cache k, st.ttl⟩

/-! ## utils/typosquat.py: SequenceMatcher similarity and typosquat check

difflib.SequenceMatcher(None, a, b) is embedded below.  The inputs here
are short package names (far below the 200-element autojunk cutoff) and
no junk predicate is given, so the junk machinery of difflib is inert:
find_longest_match reduces to picking, among the maximal matching
blocks of the current window, the one starting earliest in a and then
earliest in b, and its two junk-extension loops are no-ops. -/

/-- Length of the longest common prefix of two character lists. -/
def commonPrefixLen : List Char → List Char → ℕ
  | c :: cs, d :: ds => if c = d then commonPrefixLen cs ds + 1 else 0
  | _, _ => 0

/-- SequenceMatcher.find_longest_match on the window
a[alo..ahi) x b[blo..bhi): returns (i, j, size) of the longest matching
block, ties resolved to the smallest i and then the smallest j, and
(alo, blo, 0) when nothing matches.  The scan below visits candidate
start pairs in the same lexicographic order as the source visits block
end pairs, updating only on strictly larger size, which realises the
same tie-breaking. -/
def findLongestMatch (a b : List Char) (alo ahi blo bhi : ℕ) : ℕ × ℕ × ℕ :=
  (List.range (ahi - alo)).foldl
    (fun best di =>
      (List.range (bhi - blo)).foldl
        (fun best dj =>
          let i := alo + di
          let j := blo + dj
          let k := commonPrefixLen ((a.drop i).take (ahi - i)) ((b.drop j).take (bhi - j))
          if best.2.2 < k then (i, j, k) else best)
        best)
    (alo, blo, 0)

/-- Total number of matched characters of
SequenceMatcher.get_matching_blocks: recursively split around the
longest match of each window and add up the block sizes.  The fuel
argument dominates the recursion depth, which is bounded by the sum of
the two window lengths; matchSum below supplies enough fuel for the
recursion never to be cut off. -/
def mblocksSum (a b : List Char) : ℕ → ℕ × ℕ × ℕ × ℕ → ℕ
  | 0, _ => 0
  | fuel + 1, (alo, ahi, blo, bhi) =>
    let m := findLongestMatch a b alo ahi blo bhi
    let i := m.1
    let j := m.2.1
    let k := m.2.2
    if k = 0 then 0
    else
      k + (if alo < i ∧ blo < j then mblocksSum a b fuel (alo, i, blo, j) else 0)
        + (if i + k < ahi ∧ j + k < bhi then mblocksSum a b fuel (i + k, ahi, j + k, bhi) else 0)

/-- Total matched characters M over the full strings. -/
def matchSum (a b : List Char) : ℕ :=
  mblocksSum a b (a.length + b.length + 1) (0, a.length, 0, b.length)

/-- SequenceMatcher.ratio(): 2M / (len a + len b), and 1.0 for two empty
strings, computed as an exact rational.  The source compares the float
ratio against the float literal 0.80; for the small integer M and T
involved the exact comparison 2M/T >= 4/5 agrees with the float one,
because a rational 2M/T other than 4/5 differs from 4/5 by at least
1/(5T), far more than the rounding of either side. -/
def ratioQ (a b : String) : ℚ :=
  let la := a.toList.length
  let lb := b.toList.length
  if la + lb = 0 then 1
  else 2 * (matchSum a.toList b.toList : ℚ) / (la + lb)

/-- POPULAR_PACKAGES (utils/typosquat.py).  The source post-processes
its literal with list(set(pkg.lower() ...)); the literal entries are
already all lowercase and pairwise distinct, so that step only
randomises the order, which no theorem below depends on.  The source
order of the 121 entries is kept. -/
def POPULAR_PACKAGES : List String := [
    "lodash", "react", "react-dom", "express", "axios", "typescript",
    "webpack", "next", "vue", "angular", "moment", "jquery",
    "chalk", "commander", "debug", "request", "async", "bluebird",
    "svelte", "nuxt", "gatsby", "redux", "mobx", "rxjs",
    "passport", "socket.io", "ws", "cors", "helmet", "morgan",
    "jest", "mocha", "chai", "jasmine", "karma", "ava",
    "eslint", "prettier", "babel", "rollup", "parcel", "vite",
    "esbuild", "gulp", "grunt", "webpack-cli", "nodemon", "@types/node",
    "@types/react", "@types/express", "@types/jest", "@angular/core", "@angular/common", "@angular/router",
    "@angular/forms", "@angular/http", "@angular/platform-browser", "@babel/core", "@babel/preset-env", "@babel/preset-react",
    "@babel/preset-typescript", "@babel/plugin-transform-runtime", "react-router", "react-router-dom", "prop-types", "classnames",
    "react-scripts", "create-react-app", "styled-components", "dotenv", "fs-extra", "path",
    "util", "url", "querystring", "body-parser", "cookie-parser", "multer",
    "busboy", "mongoose", "sequelize", "typeorm", "prisma", "knex",
    "pg", "mysql", "redis", "mongodb", "sqlite3", "jsonwebtoken",
    "bcrypt", "bcryptjs", "passport-local", "passport-jwt", "express-session", "connect-redis",
    "node-fetch", "got", "superagent", "http-proxy", "http-server", "serve",
    "express-static", "dayjs", "date-fns", "luxon", "moment-timezone", "joi",
    "yup", "ajv", "validator", "class-validator", "event-stream", "ua-parser-js",
    "colors", "faker", "node-ipc", "is-promise", "flatmap-stream", "getcookies",
    "crossenv"]

/-- Everything after the first slash, if any: split("/", 1)[1]. -/
def afterFirstSlash : List Char → Option (List Char)
  | [] => none
  | c :: cs => if c = '/' then some cs else afterFirstSlash cs

/-- The underscore-to-hyphen replacement of normalize_package_name. -/
def replUnderscore (c : Char) : Char := if c = '_' then '-' else c

/-- normalize_package_name (utils/typosquat.py): lowercase, strip
whitespace, drop an @scope/ prefix, map underscores to hyphens. -/
def normalize_package_name (s : String) : String :=
  let cs := stripChars (s.toList.map Char.toLower)
  let cs2 := if cs.head? = some '@' then
               match afterFirstSlash cs with
               | some rest => rest
               | none => cs
             else cs
  String.mk (cs2.map replUnderscore)

/-- The descending-similarity comparison used to sort matches. -/
def simGe (x y : String × ℚ) : Prop := y.2 ≤ x.2

instance : DecidableRel simGe :=
  fun x y => inferInstanceAs (Decidable (y.2 ≤ x.2))

instance : IsTotal (String × ℚ) simGe :=
  ⟨fun x y => le_total y.2 x.2⟩

instance : IsTrans (String × ℚ) simGe :=
  ⟨fun _ _ _ h1 h2 => le_trans h2 h1⟩

/-- check_typosquatting (utils/typosquat.py) at the default threshold
0.80 used by its only caller: an exact normalized match returns no
matches at all, otherwise every popular package with similarity at or
above the threshold is collected with its ratio and the list is sorted
by descending similarity.  The source sort is Python list.sort with
reverse=True, stable on ties; the order among equal ratios is anyway
unspecified in the source because the popular list order is randomised
by list(set(...)). -/
def check_typosquatting (package_name : String) : List (String × ℚ) :=
  let normalized := normalize_package_name package_name
  if normalized ∈ POPULAR_PACKAGES then []
  else
    List.insertionSort simGe
      (POPULAR_PACKAGES.filterMap (fun p =>
        let r := ratioQ normalized p
        if 4 / 5 ≤ r then some (p, r) else none))

/-- The RiskFactor built for one typosquat match by
analyze_typosquatting (services/analyzer.py).  int(similarity * 100) is
the floor of the nonnegative rational.  The source surrounds the
package name with single quotes inside the description; the quotes are
left out here, which no claim depends on. -/
def mkTyposquatFactor (m : String × ℚ) : RiskFactor :=
  { name := "Typosquatting Detected"
    severity := .critical
    description := "Package name is " ++ toString (⌊m.2 * 100⌋₊) ++
      "% similar to popular package " ++ m.1
    details := some "This may be a typosquatting attempt. Verify this is the correct package."
    category := .authenticity }

/-- analyze_typosquatting (services/analyzer.py): one critical
authenticity factor per match, for at most the top 3 matches. -/
def analyze_typosquatting (package_name : String) : List RiskFactor :=
  let ms := check_typosquatting package_name
  if ms = [] then []
  else (ms.take 3).map mkTyposquatFactor

/-! ## utils/patterns.py and analyze_install_scripts (services/analyzer.py) -/

/-- DANGEROUS_COMMANDS (utils/patterns.py), in source order; several
entries carry a significant trailing space. -/
def DANGEROUS_COMMANDS : List String := [
    "curl", "wget", "nc ", "nc.traditional", "netcat", "telnet", "ftp",
    "bash -c", "/bin/sh", "/bin/bash", "sh -c", "/bin/dash",
    "eval(", "eval ", "exec(", "exec ",
    "base64", "base32", "rot13", "atob", "btoa",
    "echo", "printf",
    "powershell", "cmd.exe", "cmd /c", "cmd.exe /c",
    "rm -rf", "rm -fr", "del /f", "rmdir /s",
    "format ", "> /dev/", "| /dev/", "dd if=",
    "crontab", "systemctl", "launchctl", "at ", "schtasks",
    "service ", "chkconfig", "update-rc.d",
    "scp", "sftp", "rsync", "tar czf", "zip -r",
    "kill ", "pkill", "killall", "nohup",
    "chmod +x", "chmod 777", "chown", "chgrp",
    "python -m http.server", "python -m SimpleHTTPServer",
    "php -S", "ruby -run", "nc -l"]

/-- DANGEROUS_SCRIPTS (utils/patterns.py): the npm lifecycle hooks that
execute code at install or uninstall time, in source order. -/
def DANGEROUS_SCRIPTS : List String :=
  ["preinstall", "install", "postinstall", "preuninstall", "uninstall", "postuninstall"]

/-- First index at which pat occurs as a contiguous sublist of hay, as
str.find; none when absent (the source only indexes after an `in`
check, so the -1 case of str.find never reaches the indexing). -/
def findSubstrIdx : List Char → List Char → Option ℕ
  | pat, [] => if pat = [] then some 0 else none
  | pat, c :: rest =>
    if pat.isPrefixOf (c :: rest) then some 0
    else (findSubstrIdx pat rest).map (· + 1)

/-- Number of indices at which pat occurs in hay (used to settle what
the code counts as one finding versus one occurrence). -/
def countOccurrences (pat hay : List Char) : ℕ :=
  ((List.range (hay.length + 1)).filter (fun i => pat.isPrefixOf (hay.drop i))).length

/-- check_dangerous_patterns (utils/patterns.py): lowercase the script,
and for each dangerous command whose lowercased text occurs in it,
report the command once, with the slice of the original script from 50
characters before the first occurrence to 50 characters after it,
stripped, and truncated to 147 characters plus an ellipsis when longer
than 150. -/
def check_dangerous_patterns (script_content : String) : List (String × String) :=
  if script_content = "" then []
  else
    let orig := script_content.toList
    let lower := orig.map Char.toLower
    DANGEROUS_COMMANDS.filterMap (fun cmd =>
      let pat := cmd.toList.map Char.toLower
      match findSubstrIdx pat lower with
      | none => none
      | some idx =>
        let start := idx - 50
        let stop := min orig.length (idx + pat.length + 50)
        let ctx := stripChars ((orig.drop start).take (stop - start))
        let ctx := if 150 < ctx.length then ctx.take 147 ++ ("...").toList else ctx
        some (cmd, String.mk ctx))

/-- The medium Install Scripts Present factor of analyze_install_scripts
(services/analyzer.py). -/
def mkInstallHooksFactor (hooks : List String) : RiskFactor :=
  { name := "Install Scripts Present"
    severity := .medium
    description := "Package has lifecycle scripts: " ++ String.intercalate ", " hooks
    details := some "Install scripts execute code during installation and may pose security risks."
    category := .security }

/-- The critical Dangerous Command in Script factor of
analyze_install_scripts (services/analyzer.py).  The source quotes the
hook name inside the description; the quotes are left out here, which
no claim depends on. -/
def mkDangerFactor (hook : String) (pc : String × String) : RiskFactor :=
  { name := "Dangerous Command in Script"
    severity := .critical
    description := "Script " ++ hook ++ " contains dangerous command: " ++ pc.1
    details := some ("Context: " ++ pc.2)
    category := .security }

/-- The hooks of DANGEROUS_SCRIPTS present in the scripts dict, in
DANGEROUS_SCRIPTS order, as the dangerous_hooks loop collects them. -/
def dangerousHooksOf (scripts : List (String × String)) : List String :=
  DANGEROUS_SCRIPTS.filter (fun h => (scripts.lookup h).isSome)

/-- analyze_install_scripts (services/analyzer.py).  The scripts dict of
package.json is embedded as an association list with distinct keys.  An
empty or absent dict yields no factors; otherwise one medium factor when
any dangerous lifecycle hook is present, then for each present hook in
order at most 3 critical factors, one per dangerous command found in the
hook body. -/
def analyze_install_scripts (scripts : List (String × String)) : List RiskFactor :=
  if scripts = [] then []
  else
    let hooks := dangerousHooksOf scripts
    if hooks = [] then []
    else
      mkInstallHooksFactor hooks ::
        (hooks.map (fun h =>
          ((check_dangerous_patterns ((scripts.lookup h).getD "")).take 3).map
            (mkDangerFactor h))).flatten

/-! ## Helper lemmas -/

/-- Per-factor agreement of the tenths total and the exact rational total. -/
lemma riskExactSum_eq_tenths (fs : List RiskFactor) :
    riskExactSum fs = (riskTotalTenths fs : ℚ) / 10 := by
  induction fs with
  | nil => simp [riskExactSum, riskTotalTenths]
  | cons f fs ih =>
    have hf : (severityPoints f.severity : ℚ) * categoryMultiplierQ f.category
        = ((severityPoints f.severity * categoryMultiplierTenths f.category : ℕ) : ℚ) / 10 := by
      cases f.category <;>
        simp only [categoryMultiplierQ, categoryMultiplierTenths] <;> push_cast <;> ring
    simp only [riskExactSum, riskTotalTenths, List.map_cons, List.sum_cons] at *
    rw [hf, ih]
    push_cast
    ring

/-- Appending one factor adds its contribution to the tenths total. -/
lemma riskTotalTenths_append (fs : List RiskFactor) (f : RiskFactor) :
    riskTotalTenths (fs ++ [f])
      = riskTotalTenths fs + severityPoints f.severity * categoryMultiplierTenths f.category := by
  simp [riskTotalTenths]

/-- bitLenAux of zero is zero for any fuel. -/
lemma bitLenAux_zero (fuel : ℕ) : bitLenAux fuel 0 = 0 := by
  cases fuel <;> simp [bitLenAux]

/-- The defining bounds of bitLenAux, for any sufficient fuel. -/
lemma bitLenAux_bounds : ∀ (fuel n : ℕ), n ≤ fuel → n ≠ 0 →
    2 ^ (bitLenAux fuel n - 1) ≤ n ∧ n < 2 ^ bitLenAux fuel n := by
  intro fuel
  induction fuel with
  | zero => intro n hn h0; omega
  | succ fuel ih =>
    intro n hn h0
    rw [show bitLenAux (fuel + 1) n
        = if n = 0 then 0 else bitLenAux fuel (n / 2) + 1 from rfl]
    rw [if_neg h0]
    have hmod := Nat.div_add_mod n 2
    have hmod2 : n % 2 < 2 := Nat.mod_lt _ (by norm_num)
    by_cases h2 : n / 2 = 0
    · have h1 : n = 1 := by omega
      subst h1
      rw [show (1 : ℕ) / 2 = 0 from rfl, bitLenAux_zero]
      norm_num
    · have hdivlt : n / 2 < n := Nat.div_lt_self (by omega) (by norm_num)
      obtain ⟨l1, l2⟩ := ih (n / 2) (by omega) h2
      have hL : 1 ≤ bitLenAux fuel (n / 2) := by
        by_contra hc
        have : bitLenAux fuel (n / 2) = 0 := by omega
        rw [this] at l2
        omega
      constructor
      · have hp : (2 : ℕ) ^ (bitLenAux fuel (n / 2) + 1 - 1)
            = 2 * 2 ^ (bitLenAux fuel (n / 2) - 1) := by
          rw [← pow_succ']
          congr 1
          omega
        have := Nat.mul_le_mul_left 2 l1
        omega
      · have hp : (2 : ℕ) ^ (bitLenAux fuel (n / 2) + 1)
            = 2 * 2 ^ bitLenAux fuel (n / 2) := by
          rw [pow_succ]
          ring
        have := Nat.mul_le_mul_left 2 (show n / 2 + 1 ≤ 2 ^ bitLenAux fuel (n / 2) from l2)
        omega

/-- Upper bound: n < 2 ^ bitLen n. -/
lemma bitLen_lt (n : ℕ) : n < 2 ^ bitLen n := by
  by_cases h : n = 0
  · subst h
    norm_num [bitLen, bitLenAux]
  · exact (bitLenAux_bounds n n le_rfl h).2

/-- Lower bound: 2 ^ (bitLen n - 1) ≤ n for n ≠ 0. -/
lemma bitLen_ge (n : ℕ) (h : n ≠ 0) : 2 ^ (bitLen n - 1) ≤ n :=
  (bitLenAux_bounds n n le_rfl h).1

/-- bitLen n ≤ k exactly when n < 2 ^ k. -/
lemma bitLen_le_iff (n k : ℕ) : bitLen n ≤ k ↔ n < 2 ^ k := by
  constructor
  · intro h
    exact lt_of_lt_of_le (bitLen_lt n) (Nat.pow_le_pow_right (by norm_num) h)
  · intro h
    by_contra hc
    push_neg at hc
    have h0 : n ≠ 0 := by
      intro h0
      subst h0
      have : bitLen 0 = 0 := by norm_num [bitLen, bitLenAux]
      omega
    have hge := bitLen_ge n h0
    have hpow : (2 : ℕ) ^ k ≤ 2 ^ (bitLen n - 1) :=
      Nat.pow_le_pow_right (by norm_num) (by omega)
    omega

/-- A scaled value that is exactly representable in binary64: at most
53 significant binary digits. -/
def Rep53 (u : ℕ) : Prop := ∃ q s, u = q * 2 ^ s ∧ q ≤ 2 ^ 53

/-- Zero is representable. -/
lemma rep53_zero : Rep53 0 := ⟨0, 0, by simp, by norm_num⟩

/-- Rounding always produces a representable value. -/
lemma roundS_rep (u : ℕ) : Rep53 (roundS u) := by
  unfold roundS
  split_ifs with h
  · exact ⟨u, 0, by simp, le_of_lt ((bitLen_le_iff u 53).mp h)⟩
  · dsimp only
    push_neg at h
    have hub : u < 2 ^ (bitLen u - 53 + 53) := by
      rw [show bitLen u - 53 + 53 = bitLen u by omega]
      exact bitLen_lt u
    have hq : u / 2 ^ (bitLen u - 53) < 2 ^ 53 := by
      rw [Nat.div_lt_iff_lt_mul (by positivity)]
      calc u < 2 ^ (bitLen u - 53 + 53) := hub
        _ = 2 ^ 53 * 2 ^ (bitLen u - 53) := by rw [← pow_add]; congr 1; omega
    refine ⟨_, bitLen u - 53, rfl, ?_⟩
    split_ifs <;> omega

/-- Rounding never drops below a representable value that the exact
input dominates: the key lemma making binary64 accumulation monotone. -/
lemma roundS_ge {a : ℕ} (u : ℕ) (ha : Rep53 a) (hle : a ≤ u) : a ≤ roundS u := by
  unfold roundS
  split_ifs with h
  · exact hle
  · dsimp only
    push_neg at h
    have hu0 : u ≠ 0 := by
      intro h0
      subst h0
      have : bitLen 0 = 0 := by norm_num [bitLen, bitLenAux]
      omega
    have hs1 : 1 ≤ bitLen u - 53 := by omega
    have hlb : 2 ^ (bitLen u - 53 + 52) ≤ u := by
      rw [show bitLen u - 53 + 52 = bitLen u - 1 by omega]
      exact bitLen_ge u hu0
    have hqge : 2 ^ 52 ≤ u / 2 ^ (bitLen u - 53) := by
      rw [Nat.le_div_iff_mul_le (by positivity)]
      calc (2 : ℕ) ^ 52 * 2 ^ (bitLen u - 53)
          = 2 ^ (bitLen u - 53 + 52) := by rw [← pow_add]; congr 1; omega
        _ ≤ u := hlb
    have hfloor : a ≤ u / 2 ^ (bitLen u - 53) * 2 ^ (bitLen u - 53) := by
      obtain ⟨b, t, rfl, hb⟩ := ha
      by_cases hts : bitLen u - 53 ≤ t
      · have hdvd : 2 ^ (bitLen u - 53) ∣ b * 2 ^ t :=
          Dvd.dvd.mul_left (pow_dvd_pow 2 hts) b
        calc b * 2 ^ t = (b * 2 ^ t) / 2 ^ (bitLen u - 53) * 2 ^ (bitLen u - 53) :=
              (Nat.div_mul_cancel hdvd).symm
          _ ≤ u / 2 ^ (bitLen u - 53) * 2 ^ (bitLen u - 53) :=
              Nat.mul_le_mul_right _ (Nat.div_le_div_right hle)
      · push_neg at hts
        have h1 : b * 2 ^ t ≤ 2 ^ 53 * 2 ^ (bitLen u - 53 - 1) :=
          Nat.mul_le_mul hb (Nat.pow_le_pow_right (by norm_num) (by omega))
        have h2 : (2 : ℕ) ^ 53 * 2 ^ (bitLen u - 53 - 1)
            = 2 ^ 52 * 2 ^ (bitLen u - 53) := by
          rw [← pow_add, ← pow_add]
          congr 1
          omega
        calc b * 2 ^ t ≤ 2 ^ 52 * 2 ^ (bitLen u - 53) := by omega
          _ ≤ u / 2 ^ (bitLen u - 53) * 2 ^ (bitLen u - 53) :=
              Nat.mul_le_mul_right _ hqge
    refine le_trans hfloor (Nat.mul_le_mul_right _ ?_)
    split_ifs <;> omega

/-- The float accumulator is always a representable value. -/
lemma floatTotal_rep (fs : List RiskFactor) : Rep53 (floatTotalS fs) := by
  suffices h : ∀ (l : List RiskFactor) (acc : ℕ), Rep53 acc →
      Rep53 (l.foldl (fun a f => roundS (a + contribS f)) acc) from
    h fs 0 rep53_zero
  intro l
  induction l with
  | nil => intro acc ha; exact ha
  | cons f l ih => intro acc _; exact ih _ (roundS_rep _)

/-- Appending one finding performs one more rounded addition. -/
lemma floatTotal_append (fs : List RiskFactor) (f : RiskFactor) :
    floatTotalS (fs ++ [f]) = roundS (floatTotalS fs + contribS f) := by
  unfold floatTotalS
  rw [List.foldl_append]
  rfl

/-- Rounding is exact on multiples of 2 ^ 51 below 2 ^ 104 (totals up
to 2 ^ 52 points): such values carry at most 53 significant bits at the
rounding granularity. -/
lemma roundS_eq_of_dvd (u : ℕ) (hdvd : 2 ^ 51 ∣ u) (hub : u < 2 ^ 104) :
    roundS u = u := by
  unfold roundS
  split_ifs with h
  · rfl
  · dsimp only
    push_neg at h
    have hs51 : bitLen u - 53 ≤ 51 := by
      have := (bitLen_le_iff u 104).mpr hub
      omega
    have hdvd2 : 2 ^ (bitLen u - 53) ∣ u :=
      dvd_trans (pow_dvd_pow 2 hs51) hdvd
    have hr : u % 2 ^ (bitLen u - 53) = 0 := Nat.mod_eq_zero_of_dvd hdvd2
    rw [hr]
    rw [if_pos (show 0 < 2 ^ (bitLen u - 53 - 1) by positivity)]
    exact Nat.div_mul_cancel hdvd2

/-- The flag of calculate_risk_score is set whenever some factor is
critical in a high-risk category. -/
lemma hasCriticalHighRisk_of_mem {fs : List RiskFactor} {f : RiskFactor}
    (hmem : f ∈ fs) (hsev : f.severity = Severity.critical)
    (hcat : f.category = Category.authenticity ∨ f.category = Category.security) :
    hasCriticalHighRisk fs = true := by
  unfold hasCriticalHighRisk
  rw [List.any_eq_true]
  refine ⟨f, hmem, ?_⟩
  rcases hcat with h | h <;> simp [hsev, h, isHighRisk]

/-- With the flag set, get_risk_level yields high or critical whatever
the score. -/
lemma get_risk_level_flag (score : ℕ) :
    get_risk_level score true = "high" ∨ get_risk_level score true = "critical" := by
  unfold get_risk_level
  split_ifs with h1 h2 h3 h4
  · exact Or.inl rfl
  · exact Or.inr rfl
  · exact Or.inl rfl
  · exact absurd ⟨rfl, by omega⟩ h1
  · exact absurd ⟨rfl, by omega⟩ h1

/-- Bounds of one radar category score. -/
lemma radarScore_bounds (k : ℕ) : 5 ≤ radarScore k ∧ radarScore k ≤ 100 := by
  unfold radarScore
  split_ifs with h
  · omega
  · refine ⟨le_max_left _ _, ?_⟩
    have hle : pow20floor k ≤ 100 := Nat.findGreatest_le _
    omega

/-- A radar category score is never zero. -/
lemma radarScore_ne_zero (k : ℕ) : radarScore k ≠ 0 := by
  have := radarScore_bounds k
  omega

/-- A critical security finding, as the test helpers build one. -/
def critSecFactor : RiskFactor :=
  { name := "Test Factor", severity := .critical, description := "d",
    details := none, category := .security }

/-- A critical authenticity finding. -/
def critAuthFactor : RiskFactor :=
  { name := "Test Factor", severity := .critical, description := "d",
    details := none, category := .authenticity }

/-- A low reputation finding. -/
def lowRepFactor : RiskFactor :=
  { name := "Test Factor", severity := .low, description := "d",
    details := none, category := .reputation }

/-- A finding list on which the float accumulation visibly drifts from
the exact sum: 25 + 15 + 5 * 2.4 is exactly 52, but in binary64 the
products 3 * 0.8 round to 2.4000000000000004 and the running sum ends
at 51.99999999999999, which int() truncates to 51. -/
def floatDriftFactors : List RiskFactor :=
  [{ name := "Test Factor", severity := .critical, description := "d",
     details := none, category := .maintenance },
   { name := "Test Factor", severity := .high, description := "d",
     details := none, category := .maintenance },
   lowRepFactor, lowRepFactor, lowRepFactor, lowRepFactor, lowRepFactor]

/-! ## Claim theorems -/

/-- C1: for every finding list with a critical finding in authenticity
or security, the level computed by get_risk_level from the output of
calculate_risk_score is high or critical, never low or medium; in
particular a numeric score of 20 together with the flag yields high. -/
theorem claim_C1_critical_forces_high (fs : List RiskFactor)
    (h : ∃ f ∈ fs, f.severity = Severity.critical ∧
      (f.category = Category.authenticity ∨ f.category = Category.security)) :
    (get_risk_level (calculate_risk_score fs).1 (calculate_risk_score fs).2 = "high" ∨
     get_risk_level (calculate_risk_score fs).1 (calculate_risk_score fs).2 = "critical") ∧
    get_risk_level (calculate_risk_score fs).1 (calculate_risk_score fs).2 ≠ "low" ∧
    get_risk_level (calculate_risk_score fs).1 (calculate_risk_score fs).2 ≠ "medium" ∧
    get_risk_level 20 true = "high" := by
  obtain ⟨f, hmem, hsev, hcat⟩ := h
  have hflag : (calculate_risk_score fs).2 = true :=
    hasCriticalHighRisk_of_mem hmem hsev hcat
  rw [hflag]
  rcases get_risk_level_flag (calculate_risk_score fs).1 with hl | hl <;>
    rw [hl] <;> exact ⟨by simp, by decide, by decide, by decide⟩

theorem claim_C1_witness :
    (∃ f ∈ [critSecFactor], f.severity = Severity.critical ∧
      (f.category = Category.authenticity ∨ f.category = Category.security)) ∧
    ((get_risk_level (calculate_risk_score [critSecFactor]).1
        (calculate_risk_score [critSecFactor]).2 = "high" ∨
      get_risk_level (calculate_risk_score [critSecFactor]).1
        (calculate_risk_score [critSecFactor]).2 = "critical") ∧
     get_risk_level (calculate_risk_score [critSecFactor]).1
        (calculate_risk_score [critSecFactor]).2 ≠ "low" ∧
     get_risk_level (calculate_risk_score [critSecFactor]).1
        (calculate_risk_score [critSecFactor]).2 ≠ "medium" ∧
     get_risk_level 20 true = "high") :=
  ⟨⟨critSecFactor, by decide⟩,
   claim_C1_critical_forces_high [critSecFactor] ⟨critSecFactor, by decide⟩⟩

/-- C3: every radar category sub-score lies in [5, 100] and is never 0,
and a single critical security finding yields a security sub-score of
exactly 70. -/
theorem claim_C3_radar_scores (fs : List RiskFactor) :
    (5 ≤ (calculate_radar_scores fs).authenticity ∧
      (calculate_radar_scores fs).authenticity ≤ 100 ∧
      (calculate_radar_scores fs).authenticity ≠ 0) ∧
    (5 ≤ (calculate_radar_scores fs).maintenance ∧
      (calculate_radar_scores fs).maintenance ≤ 100 ∧
      (calculate_radar_scores fs).maintenance ≠ 0) ∧
    (5 ≤ (calculate_radar_scores fs).security ∧
      (calculate_radar_scores fs).security ≤ 100 ∧
      (calculate_radar_scores fs).security ≠ 0) ∧
    (5 ≤ (calculate_radar_scores fs).reputation ∧
      (calculate_radar_scores fs).reputation ≤ 100 ∧
      (calculate_radar_scores fs).reputation ≠ 0) ∧
    (calculate_radar_scores [critSecFactor]).security = 70 := by
  refine ⟨?_, ?_, ?_, ?_, by decide⟩ <;>
    exact ⟨(radarScore_bounds _).1, (radarScore_bounds _).2, radarScore_ne_zero _⟩

/-- C5 counterexample: the overall score is not the clamped sum of the
contributions; a single critical authenticity finding contributes
25 * 1.5 = 37.5 points but scores 37, because the source truncates with
int() before clamping. -/
theorem claim_C5_counterexample :
    ((calculate_risk_score [critAuthFactor]).1 : ℚ)
      ≠ min 100 (riskExactSum [critAuthFactor]) := by
  have h1 : (calculate_risk_score [critAuthFactor]).1 = 37 := by decide
  have h2 : riskExactSum [critAuthFactor] = 75 / 2 := by
    norm_num [riskExactSum, severityPoints, categoryMultiplierQ, critAuthFactor]
  rw [h1, h2]
  norm_num

/-- Severity base points are at most 25. -/
lemma severityPoints_le (s : Severity) : severityPoints s ≤ 25 := by
  cases s <;> norm_num [severityPoints]

/-- riskTotalTenths over a cons. -/
lemma riskTotalTenths_cons (f : RiskFactor) (fs : List RiskFactor) :
    riskTotalTenths (f :: fs)
      = severityPoints f.severity * categoryMultiplierTenths f.category
        + riskTotalTenths fs := by
  simp [riskTotalTenths]

/-- Outside the reputation category the tenths contribution is a
multiple of 5 (the multipliers are 15 and 10 tenths). -/
lemma tenths_dvd5 (f : RiskFactor) (hf : f.category ≠ Category.reputation) :
    5 ∣ severityPoints f.severity * categoryMultiplierTenths f.category := by
  cases hc : f.category with
  | authenticity => simp [categoryMultiplierTenths]; omega
  | security => simp [categoryMultiplierTenths]; omega
  | maintenance => simp [categoryMultiplierTenths]; omega
  | reputation => exact absurd hc hf

/-- Outside the reputation category the multiplier is exact in binary64
and the product stays far below the rounding range, so the contribution
is computed exactly. -/
lemma contribS_exact (f : RiskFactor) (hf : f.category ≠ Category.reputation) :
    contribS f
      = severityPoints f.severity * categoryMultiplierTenths f.category / 5 * 2 ^ 51 := by
  have hpts : severityPoints f.severity ≤ 25 := severityPoints_le f.severity
  have h76 : (76 : ℕ) * 2 ^ 51 < 2 ^ 104 := by norm_num
  unfold contribS
  cases hc : f.category with
  | authenticity =>
    rw [show multS Category.authenticity = 3 * 2 ^ 51 from rfl,
      show categoryMultiplierTenths Category.authenticity = 15 from rfl]
    rw [show severityPoints f.severity * 15 / 5 = severityPoints f.severity * 3 by omega]
    rw [show severityPoints f.severity * (3 * 2 ^ 51)
        = severityPoints f.severity * 3 * 2 ^ 51 by ring]
    exact roundS_eq_of_dvd _ ⟨severityPoints f.severity * 3, by ring⟩
      (lt_of_le_of_lt (Nat.mul_le_mul_right _ (by omega)) h76)
  | security =>
    rw [show multS Category.security = 3 * 2 ^ 51 from rfl,
      show categoryMultiplierTenths Category.security = 15 from rfl]
    rw [show severityPoints f.severity * 15 / 5 = severityPoints f.severity * 3 by omega]
    rw [show severityPoints f.severity * (3 * 2 ^ 51)
        = severityPoints f.severity * 3 * 2 ^ 51 by ring]
    exact roundS_eq_of_dvd _ ⟨severityPoints f.severity * 3, by ring⟩
      (lt_of_le_of_lt (Nat.mul_le_mul_right _ (by omega)) h76)
  | maintenance =>
    rw [show multS Category.maintenance = 2 * 2 ^ 51 from rfl,
      show categoryMultiplierTenths Category.maintenance = 10 from rfl]
    rw [show severityPoints f.severity * 10 / 5 = severityPoints f.severity * 2 by omega]
    rw [show severityPoints f.severity * (2 * 2 ^ 51)
        = severityPoints f.severity * 2 * 2 ^ 51 by ring]
    exact roundS_eq_of_dvd _ ⟨severityPoints f.severity * 2, by ring⟩
      (lt_of_le_of_lt (Nat.mul_le_mul_right _ (by omega)) h76)
  | reputation => exact absurd hc hf

/-- With no reputation finding every partial sum is an exact multiple
of half a point, so the float accumulation is exact (stated for totals
below 2 ^ 52 points, far beyond any clamping threshold). -/
lemma floatTotal_exact : ∀ (fs : List RiskFactor) (acc : ℕ),
    (∀ f ∈ fs, f.category ≠ Category.reputation) →
    5 ∣ acc →
    acc + riskTotalTenths fs < 10 * 2 ^ 52 →
    fs.foldl (fun a f => roundS (a + contribS f)) (acc / 5 * 2 ^ 51)
      = (acc + riskTotalTenths fs) / 5 * 2 ^ 51 := by
  intro fs
  induction fs with
  | nil =>
    intro acc h1 h2 h3
    simp [riskTotalTenths]
  | cons f fs ih =>
    intro acc h1 h2 h3
    have hf : f.category ≠ Category.reputation := h1 f (List.mem_cons_self f fs)
    have htenths5 := tenths_dvd5 f hf
    have hstep : acc / 5 * 2 ^ 51 + contribS f
        = (acc + severityPoints f.severity * categoryMultiplierTenths f.category)
            / 5 * 2 ^ 51 := by
      rw [contribS_exact f hf, ← Nat.add_mul]
      congr 1
      obtain ⟨a5, rfl⟩ := h2
      obtain ⟨t5, ht⟩ := htenths5
      rw [ht]
      omega
    have hbound2 : (acc + severityPoints f.severity * categoryMultiplierTenths f.category)
        + riskTotalTenths fs < 10 * 2 ^ 52 := by
      rw [riskTotalTenths_cons] at h3
      omega
    have hexact : roundS ((acc + severityPoints f.severity
          * categoryMultiplierTenths f.category) / 5 * 2 ^ 51)
        = (acc + severityPoints f.severity * categoryMultiplierTenths f.category)
            / 5 * 2 ^ 51 := by
      apply roundS_eq_of_dvd _ ⟨_, by ring⟩
      have hx : (acc + severityPoints f.severity * categoryMultiplierTenths f.category) / 5
          < 2 ^ 53 := by omega
      calc (acc + severityPoints f.severity * categoryMultiplierTenths f.category)
            / 5 * 2 ^ 51
          ≤ (2 ^ 53 - 1) * 2 ^ 51 := Nat.mul_le_mul_right _ (by omega)
        _ < 2 ^ 104 := by norm_num
    rw [List.foldl_cons]
    rw [hstep, hexact]
    rw [ih (acc + severityPoints f.severity * categoryMultiplierTenths f.category)
      (fun g hg => h1 g (List.mem_cons_of_mem f hg)) (Nat.dvd_add h2 htenths5) hbound2]
    rw [riskTotalTenths_cons]
    congr 1
    omega

/-- With no reputation finding the tenths total is a multiple of 5. -/
lemma riskTenths_dvd5 (fs : List RiskFactor)
    (hcat : ∀ f ∈ fs, f.category ≠ Category.reputation) :
    5 ∣ riskTotalTenths fs := by
  induction fs with
  | nil => simp [riskTotalTenths]
  | cons f fs ih =>
    rw [riskTotalTenths_cons]
    exact Nat.dvd_add (tenths_dvd5 f (hcat f (List.mem_cons_self f fs)))
      (ih (fun g hg => hcat g (List.mem_cons_of_mem f hg)))

/-- On finding lists without reputation findings the program score
agrees with the clamped floor of the exact sum. -/
lemma score_exact_no_reputation (fs : List RiskFactor)
    (hcat : ∀ f ∈ fs, f.category ≠ Category.reputation)
    (hbound : riskTotalTenths fs < 10 * 2 ^ 52) :
    (calculate_risk_score fs).1 = min 100 (riskTotalTenths fs / 10) := by
  have h0 := floatTotal_exact fs 0 hcat ⟨0, rfl⟩ (by simpa using hbound)
  norm_num at h0
  have hscaled : floatTotalS fs = riskTotalTenths fs / 5 * 2 ^ 51 := by
    unfold floatTotalS
    exact h0
  obtain ⟨m, hm⟩ := riskTenths_dvd5 fs hcat
  rw [show (calculate_risk_score fs).1 = min 100 (floatTotalS fs / 2 ^ 52) from rfl]
  rw [hscaled, hm]
  congr 1
  omega

/-- C5 amended: the overall score is min(100, int(total)) where total
is the binary64 float accumulation of basePoints(severity) *
categoryMultiplier(category); on findings whose multipliers are exact
doubles (every category except reputation, whose 0.8 is not) this is
the clamped floor of the exact sum, but in general both the int()
truncation (37 versus 37.5) and the accumulated float rounding (51
versus an exact clamped floor of 52 on floatDriftFactors) are
observable in the result. -/
theorem claim_C5_amended_float_score :
    (∀ fs : List RiskFactor,
      (calculate_risk_score fs).1 = min 100 (floatTotalS fs / 2 ^ 52)) ∧
    (∀ fs : List RiskFactor, (∀ f ∈ fs, f.category ≠ Category.reputation) →
      riskTotalTenths fs < 10 * 2 ^ 52 →
      (calculate_risk_score fs).1 = min 100 (riskTotalTenths fs / 10)) ∧
    (calculate_risk_score [critAuthFactor]).1 = 37 ∧
    riskExactSum [critAuthFactor] = 75 / 2 ∧
    (calculate_risk_score floatDriftFactors).1 = 51 ∧
    min 100 (⌊riskExactSum floatDriftFactors⌋₊) = 52 := by
  refine ⟨fun fs => rfl, score_exact_no_reputation, by decide, ?_, by decide, ?_⟩
  · norm_num [riskExactSum, severityPoints, categoryMultiplierQ, critAuthFactor]
  · have h : riskExactSum floatDriftFactors = 52 := by
      rw [riskExactSum_eq_tenths,
        show riskTotalTenths floatDriftFactors = 520 by decide]
      norm_num
    rw [h]
    norm_num

theorem claim_C5_witness :
    (∀ f ∈ [critSecFactor], f.category ≠ Category.reputation) ∧
    riskTotalTenths [critSecFactor] < 10 * 2 ^ 52 ∧
    (calculate_risk_score [critSecFactor]).1
      = min 100 (riskTotalTenths [critSecFactor] / 10) :=
  ⟨by decide, by decide,
   claim_C5_amended_float_score.2.1 [critSecFactor] (by decide) (by decide)⟩

/-- C6: appending a finding never decreases the overall score, and the
overall score always lies in [0, 100].  Monotonicity holds through the
binary64 accumulation because each rounded addition never falls below
its representable first operand (roundS_ge). -/
theorem claim_C6_monotone_and_clamped (fs : List RiskFactor) (f : RiskFactor) :
    (calculate_risk_score fs).1 ≤ (calculate_risk_score (fs ++ [f])).1 ∧
    (calculate_risk_score fs).1 ≤ 100 ∧ 0 ≤ (calculate_risk_score fs).1 := by
  refine ⟨?_, min_le_left _ _, Nat.zero_le _⟩
  have hmono : floatTotalS fs ≤ floatTotalS (fs ++ [f]) := by
    rw [floatTotal_append]
    exact roundS_ge _ (floatTotal_rep fs) (Nat.le_add_right _ _)
  exact min_le_min (le_refl 100) (Nat.div_le_div_right hmono)

/-- Dropping trailing whitespace keeps a non-whitespace head. -/
lemma dropTrailingWs_cons_nonws (c : Char) (l : List Char)
    (hc : c.isWhitespace = false) :
    dropTrailingWs (c :: l) = c :: dropTrailingWs l := by
  cases h : dropTrailingWs l <;> simp [dropTrailingWs, h, hc]

/-- Stripping a list with a non-whitespace head keeps the head. -/
lemma stripChars_cons_nonws (c : Char) (l : List Char)
    (hc : c.isWhitespace = false) :
    stripChars (c :: l) = c :: dropTrailingWs l := by
  unfold stripChars dropLeadingWs
  rw [List.dropWhile_cons_of_neg (by simp [hc])]
  exact dropTrailingWs_cons_nonws c l hc

/-- parse_semver falls back to (0, 0, 0) whenever the stripped input
does not begin with a digit. -/
lemma parse_semver_eq_zero_of_head (t : String) (c : Char) (l : List Char)
    (heq : stripChars t.toList = c :: l) (hc : c.isDigit = false) :
    parse_semver t = (0, 0, 0) := by
  unfold parse_semver
  rw [heq]
  simp [List.takeWhile_cons, hc]

/-- parse_semver falls back to (0, 0, 0) whenever the raw input begins
with a character that is neither whitespace nor a digit. -/
lemma parse_semver_head_nonws_nondigit (t : String) (c : Char) (l : List Char)
    (hl : t.toList = c :: l) (hw : c.isWhitespace = false)
    (hd : c.isDigit = false) :
    parse_semver t = (0, 0, 0) := by
  apply parse_semver_eq_zero_of_head t c (dropTrailingWs l) _ hd
  rw [hl]
  exact stripChars_cons_nonws c l hw

/-- C4 corrected (counterexample): parse_semver is not tolerant of a
leading qualifier; v1.2.3 parses to the (0, 0, 0) fallback, not to
(1, 2, 3). -/
theorem claim_C4_counterexample :
    parse_semver ("v1.2.3") = (0, 0, 0) ∧
    (0, 0, 0) ≠ ((1 : ℕ), (2 : ℕ), (3 : ℕ)) := by
  constructor
  · decide
  · decide

/-- C4 amended: a leading qualifier (v, caret, tilde or comparison
operator) makes parse_semver return the fallback (0, 0, 0) whatever
follows it, exactly as any other input whose stripped form does not
start with a digit; the function is total and never fails. -/
theorem claim_C4_amended_qualifier_fallback :
    (∀ q ∈ (["v", "^", "~", "<", ">", "<=", ">=", "=", "!="] : List String),
      ∀ s : String, parse_semver (q ++ s) = (0, 0, 0)) ∧
    (∀ t : String, (∀ c ∈ (stripChars t.toList).head?, c.isDigit = false) →
      parse_semver t = (0, 0, 0)) := by
  constructor
  · intro q hq s
    fin_cases hq <;>
      [apply parse_semver_head_nonws_nondigit _ 'v' s.toList;
       apply parse_semver_head_nonws_nondigit _ '^' s.toList;
       apply parse_semver_head_nonws_nondigit _ '~' s.toList;
       apply parse_semver_head_nonws_nondigit _ '<' s.toList;
       apply parse_semver_head_nonws_nondigit _ '>' s.toList;
       apply parse_semver_head_nonws_nondigit _ '<' ('=' :: s.toList);
       apply parse_semver_head_nonws_nondigit _ '>' ('=' :: s.toList);
       apply parse_semver_head_nonws_nondigit _ '=' s.toList;
       apply parse_semver_head_nonws_nondigit _ '!' ('=' :: s.toList)] <;>
      first
        | decide
        | (show _ ++ _ = _; simp)
  · intro t hhead
    cases heq : stripChars t.toList with
    | nil =>
      unfold parse_semver
      rw [heq]
      simp
    | cons c l =>
      exact parse_semver_eq_zero_of_head t c l heq
        (hhead c (by rw [heq]; rfl))

theorem claim_C4_amended_witness :
    parse_semver ("v1.2.3") = (0, 0, 0) ∧ parse_semver ("lodash") = (0, 0, 0) :=
  ⟨claim_C4_amended_qualifier_fallback.1 "v" (by decide) "1.2.3",
   claim_C4_amended_qualifier_fallback.2 "lodash" (by decide)⟩

/-- The special-cased introduced bound of version_in_range equals the
plain parse of the introduced string, because both the empty string and
0 parse to (0, 0, 0) anyway. -/
lemma introBound_eq (introduced : String) :
    (if introduced ≠ "" ∧ introduced ≠ "0" then parse_semver introduced
     else (0, 0, 0)) = parse_semver introduced := by
  split_ifs with h
  · rfl
  · rcases Decidable.not_and_iff_or_not.mp h with h1 | h1 <;>
      rw [Decidable.not_not.mp h1] <;> decide

/-- One OSV range matches exactly when it is a SEMVER range with an
introduced event whose resulting bounds contain the version. -/
lemma rangeMatches_iff (version : String) (r : OsvRange) :
    rangeMatches version r = true ↔
      (r.type = "SEMVER" ∧ ∃ intro, (foldEvents r.events).1 = some intro ∧
        version_in_range version intro (foldEvents r.events).2.1
          (foldEvents r.events).2.2 = true) := by
  unfold rangeMatches
  split_ifs with ht
  · cases hi : (foldEvents r.events).1 <;> simp [ht, hi]
  · simp [ht]

/-- The behavioural description of version_in_range: at least the
introduced bound, and below the fixed bound or at most the
last_affected bound when those are given (with last_affected taking
priority), assuming the optional bounds are not degenerate empty
strings. -/
lemma version_in_range_iff :
    ∀ (version introduced : String) (fixed last_affected : Option String),
      (∀ s, fixed = some s → s ≠ "") → (∀ s, last_affected = some s → s ≠ "") →
      (version_in_range version introduced fixed last_affected = true ↔
        (¬ semverLtP (parse_semver version) (parse_semver introduced) ∧
          (match last_affected with
           | some la => semverLeP (parse_semver version) (parse_semver la)
           | none =>
             match fixed with
             | some f => semverLtP (parse_semver version) (parse_semver f)
             | none => True))) := by
  intro version introduced fixed last_affected hf hl
  unfold version_in_range
  rw [introBound_eq]
  by_cases hv : semverLtP (parse_semver version) (parse_semver introduced)
  · simp only [if_pos hv]
    simp [hv]
  · simp only [if_neg hv]
    cases last_affected with
    | some la =>
      have hla : truthy (some la) = true := by simp [truthy, hl la rfl]
      simp [hla, hv]
    | none =>
      cases fixed with
      | some f =>
        have hfx : truthy (some f) = true := by simp [truthy, hf f rfl]
        simp [show truthy none = false from rfl, hfx, hv]
      | none => simp [show truthy none = false from rfl, hv]

/-- is_version_affected on a nonempty version is exactly the existence
of a matching SEMVER range inside an npm affected entry. -/
lemma is_version_affected_iff (version : String) (vuln : OsvVuln)
    (hne : version ≠ "") :
    (is_version_affected version vuln = true ↔
      ∃ aff ∈ vuln.affected, aff.ecosystem = "npm" ∧
        ∃ r ∈ aff.ranges, r.type = "SEMVER" ∧
          ∃ intro, (foldEvents r.events).1 = some intro ∧
            version_in_range version intro (foldEvents r.events).2.1
              (foldEvents r.events).2.2 = true) := by
  unfold is_version_affected
  rw [if_neg hne]
  simp [List.any_eq_true, rangeMatches_iff]

/-- C2: version_in_range is membership in the OSV-style interval
(introduced inclusive, fixed exclusive, last_affected inclusive and
taking priority over fixed, everything affected when neither is given),
is_version_affected is the existence of a matching SEMVER range of an
npm affected entry, and on the range introduced 0 / fixed 4.17.12 the
version 4.17.11 is affected while 4.17.12 and 4.17.21 are not. -/
theorem claim_C2_version_range_matching :
    (∀ (version introduced : String) (fixed last_affected : Option String),
      (∀ s, fixed = some s → s ≠ "") → (∀ s, last_affected = some s → s ≠ "") →
      (version_in_range version introduced fixed last_affected = true ↔
        (¬ semverLtP (parse_semver version) (parse_semver introduced) ∧
          (match last_affected with
           | some la => semverLeP (parse_semver version) (parse_semver la)
           | none =>
             match fixed with
             | some f => semverLtP (parse_semver version) (parse_semver f)
             | none => True)))) ∧
    (∀ (version : String) (vuln : OsvVuln), version ≠ "" →
      (is_version_affected version vuln = true ↔
        ∃ aff ∈ vuln.affected, aff.ecosystem = "npm" ∧
          ∃ r ∈ aff.ranges, r.type = "SEMVER" ∧
            ∃ intro, (foldEvents r.events).1 = some intro ∧
              version_in_range version intro (foldEvents r.events).2.1
                (foldEvents r.events).2.2 = true)) ∧
    version_in_range ("4.17.11") ("0") (some ("4.17.12")) none = true ∧
    version_in_range ("4.17.12") ("0") (some ("4.17.12")) none = false ∧
    version_in_range ("4.17.21") ("0") (some ("4.17.12")) none = false :=
  ⟨version_in_range_iff, is_version_affected_iff, by decide, by decide, by decide⟩

theorem claim_C2_witness :
    ((version_in_range ("4.17.11") ("0") (some ("4.17.12")) none = true ↔
      (¬ semverLtP (parse_semver ("4.17.11")) (parse_semver ("0")) ∧
        semverLtP (parse_semver ("4.17.11")) (parse_semver ("4.17.12")))) ∧
     (is_version_affected ("1.0.0")
        ⟨[⟨"npm", [⟨"SEMVER", [⟨some ("0"), some ("2.0.0"), none⟩]⟩]⟩]⟩ = true ↔
      ∃ aff ∈ [(⟨"npm", [⟨"SEMVER", [⟨some ("0"), some ("2.0.0"), none⟩]⟩]⟩ : OsvAffected)],
        aff.ecosystem = "npm" ∧
        ∃ r ∈ aff.ranges, r.type = "SEMVER" ∧
          ∃ intro, (foldEvents r.events).1 = some intro ∧
            version_in_range ("1.0.0") intro (foldEvents r.events).2.1
              (foldEvents r.events).2.2 = true)) :=
  ⟨claim_C2_version_range_matching.1 "4.17.11" "0" (some "4.17.12") none
      (by intro s hs; cases hs; decide) (by intro s hs; cases hs),
   claim_C2_version_range_matching.2.1 "1.0.0"
      ⟨[⟨"npm", [⟨"SEMVER", [⟨some ("0"), some ("2.0.0"), none⟩]⟩]⟩]⟩ (by decide)⟩

/-- C9: after set(key, value) at time t0, get(key) at time t returns
the value exactly when t - t0 is below the ttl and nothing otherwise;
an expired entry is removed from the map by the very lookup that finds
it expired; and no entry is removed earlier, since a lookup of another
key and a set of another key both leave the entry untouched. -/
theorem claim_C9_ttl_cache_lazy_eviction :
    ∀ (α : Type) (st : TTLCache α) (k k' : String) (v w : α) (t0 t1 t : ℤ),
      (((st.set k v t0).get k t).1 = if t - t0 < st.ttl then some v else none) ∧
      (st.ttl ≤ t - t0 → (((st.set k v t0).get k t).2).cache k = none) ∧
      (k' ≠ k → (((st.get k' t).2).cache k = st.cache k)) ∧
      (k' ≠ k → ((st.set k' w t1).cache k = st.cache k)) := by
  intro α st k k' v w t0 t1 t
  refine ⟨?_, ?_, ?_, ?_⟩
  · by_cases h : t - t0 < st.ttl <;> simp [TTLCache.set, TTLCache.get, h]
  · intro h
    have hnot : ¬(t - t0 < st.ttl) := not_lt.mpr h
    simp [TTLCache.set, TTLCache.get, hnot]
  · intro hk
    unfold TTLCache.get
    cases hc : st.cache k' with
    | none => rfl
    | some p =>
      obtain ⟨v', ts⟩ := p
      by_cases hfresh : t - ts < st.ttl
      · simp [hfresh]
      · simp [hfresh, Ne.symm hk]
  · intro hk
    simp [TTLCache.set, Ne.symm hk]

theorem claim_C9_witness :
    ((((TTLCache.init ℕ 3600).set "a" 1 0).get "a" 3600).1
        = if (3600 : ℤ) - 0 < (TTLCache.init ℕ 3600).ttl then some 1 else none) ∧
    ((((TTLCache.init ℕ 3600).set "a" 1 0).get "a" 3600).2).cache "a" = none ∧
    (((TTLCache.init ℕ 3600).get "b" 3600).2).cache "a"
        = (TTLCache.init ℕ 3600).cache "a" ∧
    ((TTLCache.init ℕ 3600).set "b" 2 0).cache "a"
        = (TTLCache.init ℕ 3600).cache "a" := by
  have h := claim_C9_ttl_cache_lazy_eviction ℕ (TTLCache.init ℕ 3600) "a" "b" 1 2 0 0 3600
  exact ⟨h.1, h.2.1 (by decide), h.2.2.1 (by decide), h.2.2.2 (by decide)⟩

/-- The critical factors produced for the hooks are all critical
security factors. -/
lemma mem_dangerFlatten {scripts : List (String × String)} {f : RiskFactor}
    (hf : f ∈ ((dangerousHooksOf scripts).map (fun h =>
      ((check_dangerous_patterns ((scripts.lookup h).getD "")).take 3).map
        (mkDangerFactor h))).flatten) :
    f.category = Category.security ∧ f.severity = Severity.critical := by
  rw [List.mem_flatten] at hf
  obtain ⟨l, hl, hfl⟩ := hf
  rw [List.mem_map] at hl
  obtain ⟨h, _, rfl⟩ := hl
  rw [List.mem_map] at hfl
  obtain ⟨pc, _, rfl⟩ := hfl
  exact ⟨rfl, rfl⟩

/-- An empty scripts dict has no dangerous hooks. -/
lemma dangerousHooksOf_nil : dangerousHooksOf [] = [] := by decide

/-- C8 corrected (counterexample): the critical findings are one per
recognized dangerous command, not one per occurrence; a preinstall
script containing curl twice yields a single critical finding. -/
theorem claim_C8_counterexample :
    countOccurrences (("curl").toList)
        ((("curl a.sh; curl b.sh").toList).map Char.toLower) = 2 ∧
    ((analyze_install_scripts [("preinstall", "curl a.sh; curl b.sh")]).filter
        (fun f => decide (f.severity = Severity.critical))).length = 1 := by
  constructor
  · decide
  · decide

/-- C8 amended: with no install-time hook present there are no findings;
with hooks present the findings are exactly one medium finding plus, per
present hook, one critical finding for each recognized dangerous command
found in the hook body (first occurrence only, reported with about 50
characters of context on each side), capped at 3 per hook; and every
finding is a security finding that is either the single medium one or
critical. -/
theorem claim_C8_amended_install_scripts (scripts : List (String × String)) :
    (dangerousHooksOf scripts = [] → analyze_install_scripts scripts = []) ∧
    (dangerousHooksOf scripts ≠ [] →
      (analyze_install_scripts scripts).length
        = 1 + ((dangerousHooksOf scripts).map
            (fun h => min 3 (check_dangerous_patterns
              ((scripts.lookup h).getD "")).length)).sum ∧
      ((analyze_install_scripts scripts).filter
          (fun f => decide (f.severity = Severity.medium))).length = 1) ∧
    (∀ f ∈ analyze_install_scripts scripts,
      f.category = Category.security ∧
        (f.severity = Severity.medium ∨ f.severity = Severity.critical)) := by
  refine ⟨?_, ?_, ?_⟩
  · intro h
    by_cases hs : scripts = [] <;> simp [analyze_install_scripts, hs, h]
  · intro h
    have hs : scripts ≠ [] := by
      intro hnil
      rw [hnil, dangerousHooksOf_nil] at h
      exact h rfl
    unfold analyze_install_scripts
    rw [if_neg hs, if_neg h]
    constructor
    · simp only [List.length_cons, List.length_flatten, List.map_map]
      have : ∀ hk : String,
          (((check_dangerous_patterns ((scripts.lookup hk).getD "")).take 3).map
            (mkDangerFactor hk)).length
          = min 3 (check_dangerous_patterns ((scripts.lookup hk).getD "")).length := by
        intro hk
        rw [List.length_map, List.length_take]
      simp only [Function.comp_def, this]
      omega
    · have hrest : (((dangerousHooksOf scripts).map (fun hk =>
          ((check_dangerous_patterns ((scripts.lookup hk).getD "")).take 3).map
            (mkDangerFactor hk))).flatten).filter
          (fun f => decide (f.severity = Severity.medium)) = [] := by
        rw [List.filter_eq_nil_iff]
        intro f hf
        have := (mem_dangerFlatten hf).2
        simp [this]
      simp only [List.filter_cons]
      rw [if_pos (show decide ((mkInstallHooksFactor
          (dangerousHooksOf scripts)).severity = Severity.medium) = true from rfl)]
      rw [hrest]
      rfl
  · intro f hf
    by_cases hs : scripts = []
    · rw [hs] at hf
      simp [analyze_install_scripts] at hf
    · by_cases h : dangerousHooksOf scripts = []
      · unfold analyze_install_scripts at hf
        rw [if_neg hs, if_pos h] at hf
        simp at hf
      · unfold analyze_install_scripts at hf
        rw [if_neg hs, if_neg h] at hf
        rcases List.mem_cons.mp hf with rfl | hmem
        · exact ⟨rfl, Or.inl rfl⟩
        · have := mem_dangerFlatten hmem
          exact ⟨this.1, Or.inr this.2⟩

theorem claim_C8_witness :
    (dangerousHooksOf [("preinstall", "curl a.sh; curl b.sh")] ≠ []) ∧
    (analyze_install_scripts [("preinstall", "curl a.sh; curl b.sh")]).length
      = 1 + ((dangerousHooksOf [("preinstall", "curl a.sh; curl b.sh")]).map
          (fun h => min 3 (check_dangerous_patterns
            (([("preinstall", "curl a.sh; curl b.sh")].lookup h).getD "")).length)).sum :=
  ⟨by decide,
   ((claim_C8_amended_install_scripts [("preinstall", "curl a.sh; curl b.sh")]).2.1
      (by decide)).1⟩

/-- Reduce a concrete threshold check on ratioQ to natural-number
arithmetic on the match count and the length sum. -/
lemma ratioQ_ge_of (a b : String) (M T : ℕ)
    (hm : matchSum a.toList b.toList = M)
    (ht : a.toList.length + b.toList.length = T)
    (hT : 0 < T) (hcross : 4 * T ≤ 10 * M) :
    4 / 5 ≤ ratioQ a b := by
  unfold ratioQ
  dsimp only
  rw [hm, ← Nat.cast_add, ht, if_neg (by omega)]
  rw [div_le_div_iff₀ (by norm_num) (by exact_mod_cast hT)]
  have hc : ((4 * T : ℕ) : ℚ) ≤ ((10 * M : ℕ) : ℚ) := Nat.cast_le.mpr hcross
  push_cast at hc ⊢
  linarith

/-- A popular package within the threshold of a non-popular normalized
name appears among the collected matches. -/
lemma check_typosquatting_mem (name p : String)
    (h1 : normalize_package_name name ∉ POPULAR_PACKAGES)
    (h2 : p ∈ POPULAR_PACKAGES)
    (h3 : 4 / 5 ≤ ratioQ (normalize_package_name name) p) :
    (p, ratioQ (normalize_package_name name) p) ∈ check_typosquatting name := by
  unfold check_typosquatting
  rw [if_neg h1]
  rw [(List.perm_insertionSort simGe _).mem_iff]
  rw [List.mem_filterMap]
  exact ⟨p, h2, by simp [if_pos h3]⟩

/-- When the normalized name is not itself popular but lies within the
threshold of some popular package, the analyzer produces between 1 and 3
findings, all critical authenticity ones. -/
lemma analyze_typosquatting_flags (name p : String)
    (h1 : normalize_package_name name ∉ POPULAR_PACKAGES)
    (h2 : p ∈ POPULAR_PACKAGES)
    (h3 : 4 / 5 ≤ ratioQ (normalize_package_name name) p) :
    1 ≤ (analyze_typosquatting name).length ∧
    (analyze_typosquatting name).length ≤ 3 ∧
    ∀ f ∈ analyze_typosquatting name,
      f.severity = Severity.critical ∧ f.category = Category.authenticity := by
  have hmem := check_typosquatting_mem name p h1 h2 h3
  have hpos : 0 < (check_typosquatting name).length := List.length_pos_of_mem hmem
  have hne : check_typosquatting name ≠ [] := by
    intro h0
    rw [h0] at hpos
    simp at hpos
  unfold analyze_typosquatting
  rw [if_neg hne]
  refine ⟨?_, ?_, ?_⟩
  · rw [List.length_map, List.length_take]
    exact le_min (by norm_num) hpos
  · rw [List.length_map, List.length_take]
    exact min_le_left _ _
  · intro f hf
    rw [List.mem_map] at hf
    obtain ⟨m, _, rfl⟩ := hf
    exact ⟨rfl, rfl⟩

/-- C7 corrected (counterexample): react-router-dom is itself a popular
package, yet its similarity to the distinct popular entry react-router
is above the 0.80 threshold; the exact-match rule wins and no finding is
produced, contradicting the claim that similarity to a non-identical
entry always flags. -/
theorem claim_C7_counterexample :
    ("react-router" ∈ POPULAR_PACKAGES) ∧
    ("react-router" ≠ normalize_package_name ("react-router-dom")) ∧
    (4 / 5 ≤ ratioQ (normalize_package_name ("react-router-dom")) ("react-router")) ∧
    check_typosquatting ("react-router-dom") = [] ∧
    analyze_typosquatting ("react-router-dom") = [] := by
  refine ⟨by decide, by decide, ?_, by decide, by decide⟩
  rw [show normalize_package_name ("react-router-dom") = "react-router-dom" by decide]
  exact ratioQ_ge_of ("react-router-dom") ("react-router") 12 28
    (by decide) (by decide) (by decide) (by decide)

/-- C7 amended: a name whose normalized form is an exact popular entry
never flags, even when within threshold of another entry; a name whose
normalized form is not popular and is within the 0.80 threshold of some
popular entry yields between 1 and 3 critical authenticity findings,
drawn from the matches sorted in descending similarity; and a
single-character edit of a long popular name, such as lodahs, does
flag. -/
theorem claim_C7_amended_typosquat (name : String) :
    (normalize_package_name name ∈ POPULAR_PACKAGES →
      analyze_typosquatting name = []) ∧
    (normalize_package_name name ∉ POPULAR_PACKAGES →
      ∀ p ∈ POPULAR_PACKAGES, 4 / 5 ≤ ratioQ (normalize_package_name name) p →
        1 ≤ (analyze_typosquatting name).length ∧
        (analyze_typosquatting name).length ≤ 3 ∧
        ∀ f ∈ analyze_typosquatting name,
          f.severity = Severity.critical ∧ f.category = Category.authenticity) ∧
    List.Pairwise simGe (check_typosquatting name) ∧
    analyze_typosquatting ("lodahs") ≠ [] := by
  refine ⟨?_, ?_, ?_, ?_⟩
  · intro h
    simp [analyze_typosquatting, check_typosquatting, h]
  · intro h1 p h2 h3
    exact analyze_typosquatting_flags name p h1 h2 h3
  · by_cases h : normalize_package_name name ∈ POPULAR_PACKAGES
    · simp [check_typosquatting, h]
    · simp only [check_typosquatting, if_neg h]
      exact List.sorted_insertionSort simGe _
  · have hratio : 4 / 5 ≤ ratioQ (normalize_package_name ("lodahs")) ("lodash") := by
      rw [show normalize_package_name ("lodahs") = "lodahs" by decide]
      exact ratioQ_ge_of ("lodahs") ("lodash") 5 12
        (by decide) (by decide) (by decide) (by decide)
    have hlen := (analyze_typosquatting_flags ("lodahs") ("lodash")
      (by decide) (by decide) hratio).1
    intro h0
    rw [h0] at hlen
    simp at hlen

theorem claim_C7_witness :
    (normalize_package_name ("lodahs") ∉ POPULAR_PACKAGES) ∧
    ("lodash" ∈ POPULAR_PACKAGES) ∧
    (4 / 5 ≤ ratioQ (normalize_package_name ("lodahs")) ("lodash")) ∧
    1 ≤ (analyze_typosquatting ("lodahs")).length ∧
    (analyze_typosquatting ("lodahs")).length ≤ 3 ∧
    (∀ f ∈ analyze_typosquatting ("lodahs"),
      f.severity = Severity.critical ∧ f.category = Category.authenticity) ∧
    analyze_typosquatting ("lodahs") ≠ [] := by
  have hratio : 4 / 5 ≤ ratioQ (normalize_package_name ("lodahs")) ("lodash") := by
    rw [show normalize_package_name ("lodahs") = "lodahs" by decide]
    exact ratioQ_ge_of ("lodahs") ("lodash") 5 12
      (by decide) (by decide) (by decide) (by decide)
  have h := claim_C7_amended_typosquat ("lodahs")
  have hflags := h.2.1 (by decide) ("lodash") (by decide) hratio
  exact ⟨by decide, by decide, hratio, hflags.1, hflags.2.1, hflags.2.2, h.2.2.2⟩

/-- Trailing whitespace removal is the identity on a list whose last
element is not whitespace. -/
lemma dropTrailingWs_eq_self (l : List Char)
    (h : ∀ c ∈ l.getLast?, c.isWhitespace = false) :
    dropTrailingWs l = l := by
  induction l with
  | nil => rfl
  | cons a as ih =>
    cases has : as with
    | nil =>
      have ha : a.isWhitespace = false := by
        apply h
        rw [has]
        rfl
      simp [dropTrailingWs, ha]
    | cons b bs =>
      subst has
      have htail : dropTrailingWs (b :: bs) = b :: bs := by
        apply ih
        intro c hc
        apply h
        rw [List.getLast?_cons_cons]
        exact hc
      rw [show dropTrailingWs (a :: b :: bs)
          = (match dropTrailingWs (b :: bs) with
             | [] => if a.isWhitespace then [] else [a]
             | cs' => a :: cs') from rfl]
      rw [htail]

/-- Trailing whitespace removal only looks at the tail part of an
append whose tail is nonempty. -/
lemma dropTrailingWs_append (l1 l2 : List Char)
    (h2 : dropTrailingWs l2 = l2) (hne : l2 ≠ []) :
    dropTrailingWs (l1 ++ l2) = l1 ++ l2 := by
  induction l1 with
  | nil => simpa
  | cons a as ih =>
    rw [List.cons_append]
    have hx : as ++ l2 ≠ [] := by simp [hne]
    rw [show dropTrailingWs (a :: (as ++ l2))
        = (match dropTrailingWs (as ++ l2) with
           | [] => if a.isWhitespace then [] else [a]
           | cs' => a :: cs') from rfl]
    rw [ih]
    cases hy : as ++ l2 with
    | nil => exact absurd hy hx
    | cons b bs => rfl

/-- afterFirstSlash splits at the first slash. -/
lemma afterFirstSlash_append (l1 l2 : List Char) (h : '/' ∉ l1) :
    afterFirstSlash (l1 ++ '/' :: l2) = some l2 := by
  induction l1 with
  | nil => simp [afterFirstSlash]
  | cons c cs ih =>
    have hc : ¬(c = '/') := fun hc => h (hc ▸ List.mem_cons_self c cs)
    rw [List.cons_append]
    rw [show afterFirstSlash (c :: (cs ++ '/' :: l2))
        = if c = '/' then some (cs ++ '/' :: l2)
          else afterFirstSlash (cs ++ '/' :: l2) from rfl]
    rw [if_neg hc]
    exact ih (fun hmem => h (List.mem_cons_of_mem c hmem))

/-- The popular entries are invariant under the normalization tail:
lowercasing then underscore replacement gives the entry back, every
entry is nonempty, and no lowered character is whitespace. -/
lemma popular_norm_invariant :
    POPULAR_PACKAGES.all (fun p =>
      decide ((p.toList.map Char.toLower).map replUnderscore = p.toList) &&
      decide (p.toList ≠ []) &&
      (p.toList.map Char.toLower).all (fun c => ! c.isWhitespace)) = true := by
  decide

/-- Normalizing a scoped name whose tail after the scope slash is a
popular entry yields exactly that entry. -/
lemma normalize_scoped_eq (pre p : String)
    (hp : p ∈ POPULAR_PACKAGES)
    (hpre : (pre.toList.map Char.toLower).all (fun c => decide (c ≠ '/')) = true) :
    normalize_package_name ("@" ++ pre ++ "/" ++ p) = p := by
  have hfacts := List.all_eq_true.mp popular_norm_invariant p hp
  rw [Bool.and_eq_true, Bool.and_eq_true] at hfacts
  have hA : (p.toList.map Char.toLower).map replUnderscore = p.toList :=
    of_decide_eq_true hfacts.1.1
  have hB : p.toList ≠ [] := of_decide_eq_true hfacts.1.2
  have hC : ∀ c ∈ p.toList.map Char.toLower, c.isWhitespace = false := by
    intro c hc
    have := List.all_eq_true.mp hfacts.2 c hc
    simpa using this
  have hq : p.toList.map Char.toLower ≠ [] := by
    intro h0
    exact hB (List.map_eq_nil_iff.mp h0)
  have hlist : ("@" ++ pre ++ "/" ++ p).toList
      = '@' :: (pre.toList ++ '/' :: p.toList) := by
    show ("@" ++ pre ++ "/" ++ p).data = _
    rw [String.data_append, String.data_append, String.data_append]
    simp
  unfold normalize_package_name
  rw [hlist]
  rw [show ('@' :: (pre.toList ++ '/' :: p.toList)).map Char.toLower
      = '@' :: ((pre.toList.map Char.toLower)
          ++ '/' :: (p.toList.map Char.toLower)) by simp]
  have hq2 : dropTrailingWs (p.toList.map Char.toLower)
      = p.toList.map Char.toLower := by
    apply dropTrailingWs_eq_self
    intro c hc
    obtain ⟨hne, rfl⟩ := List.mem_getLast?_eq_getLast hc
    exact hC _ (List.getLast_mem hne)
  have hstrip : stripChars ('@' :: ((pre.toList.map Char.toLower)
      ++ '/' :: (p.toList.map Char.toLower)))
      = '@' :: ((pre.toList.map Char.toLower)
          ++ '/' :: (p.toList.map Char.toLower)) := by
    unfold stripChars dropLeadingWs
    rw [List.dropWhile_cons_of_neg (by decide)]
    rw [show '@' :: ((pre.toList.map Char.toLower)
        ++ '/' :: (p.toList.map Char.toLower))
        = ('@' :: ((pre.toList.map Char.toLower) ++ ['/']))
            ++ (p.toList.map Char.toLower) by simp]
    exact dropTrailingWs_append _ _ hq2 hq
  rw [hstrip]
  have hslash : '/' ∉ ('@' :: (pre.toList.map Char.toLower)) := by
    intro hmem
    rcases List.mem_cons.mp hmem with h0 | h0
    · exact absurd h0.symm (by decide)
    · have := List.all_eq_true.mp hpre '/' h0
      simp at this
  have hafter : afterFirstSlash ('@' :: ((pre.toList.map Char.toLower)
      ++ '/' :: (p.toList.map Char.toLower)))
      = some (p.toList.map Char.toLower) := by
    rw [show ('@' :: ((pre.toList.map Char.toLower)
        ++ '/' :: (p.toList.map Char.toLower)))
        = ('@' :: (pre.toList.map Char.toLower))
          ++ '/' :: (p.toList.map Char.toLower) by simp]
    exact afterFirstSlash_append _ _ hslash
  dsimp only
  rw [List.head?_cons, if_pos rfl, hafter]
  rw [hA]
  rfl

/-- C10: for a scoped package name whose part after the scope slash is
exactly a popular entry, normalization strips the scope and the exact
match short-circuits, so no typosquat finding is ever produced. -/
theorem claim_C10_scoped_exact_no_flag (pre p : String)
    (hp : p ∈ POPULAR_PACKAGES)
    (hpre : (pre.toList.map Char.toLower).all (fun c => decide (c ≠ '/')) = true) :
    check_typosquatting ("@" ++ pre ++ "/" ++ p) = [] ∧
    analyze_typosquatting ("@" ++ pre ++ "/" ++ p) = [] := by
  have hnorm := normalize_scoped_eq pre p hp hpre
  have hcheck : check_typosquatting ("@" ++ pre ++ "/" ++ p) = [] := by
    unfold check_typosquatting
    rw [hnorm, if_pos hp]
  exact ⟨hcheck, by simp [analyze_typosquatting, hcheck]⟩

theorem claim_C10_witness :
    ("react" ∈ POPULAR_PACKAGES) ∧
    check_typosquatting ("@" ++ "anything" ++ "/" ++ "react") = [] ∧
    analyze_typosquatting ("@" ++ "anything" ++ "/" ++ "react") = [] :=
  ⟨by decide,
   (claim_C10_scoped_exact_no_flag ("anything") ("react") (by decide) (by decide)).1,
   (claim_C10_scoped_exact_no_flag ("anything") ("react") (by decide) (by decide)).2⟩

/-- The natural-number characterisation used by pow20floor agrees with
the real floor of 100 * 2 ^ (-k/20), i.e. with the exact value of
int(100 * 0.5 ** weight) at weight = k / 20. -/
lemma pow20floorFloor (k : ℕ) :
    pow20floor k = ⌊(100 : ℝ) * 2 ^ (-(k : ℝ) / 20)⌋₊ := by
  have h2 : (0 : ℝ) < 2 ^ ((k : ℕ) : ℝ) := Real.rpow_pos_of_pos (by norm_num) _
  have hxpos : (0 : ℝ) < (100 : ℝ) * 2 ^ (-(k : ℝ) / 20) := by
    have := Real.rpow_pos_of_pos (show (0 : ℝ) < 2 by norm_num) (-(k : ℝ) / 20)
    nlinarith
  have hx20 : ((100 : ℝ) * 2 ^ (-(k : ℝ) / 20)) ^ 20
      = (100 : ℝ) ^ 20 * (2 ^ ((k : ℕ) : ℝ))⁻¹ := by
    rw [mul_pow]
    congr 1
    rw [← Real.rpow_natCast ((2 : ℝ) ^ (-(k : ℝ) / 20)) 20,
      ← Real.rpow_mul (by norm_num : (0 : ℝ) ≤ 2)]
    rw [show -(k : ℝ) / 20 * (20 : ℕ) = -((k : ℕ) : ℝ) by push_cast; ring]
    rw [Real.rpow_neg (by norm_num : (0 : ℝ) ≤ 2)]
  have hkey : ∀ n : ℕ, ((n : ℝ) ≤ (100 : ℝ) * 2 ^ (-(k : ℝ) / 20) ↔
      n ^ 20 * 2 ^ k ≤ 100 ^ 20) := by
    intro n
    rw [← pow_le_pow_iff_left₀ (by positivity) hxpos.le
      (show 20 ≠ 0 by norm_num)]
    rw [hx20]
    rw [← div_eq_mul_inv, le_div_iff₀ h2]
    rw [show (2 : ℝ) ^ ((k : ℕ) : ℝ) = ((2 ^ k : ℕ) : ℝ) by
      rw [Real.rpow_natCast]; push_cast; ring]
    constructor
    · intro h
      exact_mod_cast h
    · intro h
      exact_mod_cast h
  have hP0 : (0 : ℕ) ^ 20 * 2 ^ k ≤ 100 ^ 20 := by
    simp
  unfold pow20floor
  apply le_antisymm
  · apply Nat.le_floor
    have hspec := @Nat.findGreatest_spec 0 (fun n => n ^ 20 * 2 ^ k ≤ 100 ^ 20) _
      100 (Nat.zero_le 100) hP0
    exact (hkey _).mpr hspec
  · apply Nat.le_findGreatest
    · have hle1 : (2 : ℝ) ^ (-(k : ℝ) / 20) ≤ 1 := by
        apply Real.rpow_le_one_of_one_le_of_nonpos (by norm_num)
        have : (0 : ℝ) ≤ (k : ℝ) := Nat.cast_nonneg k
        nlinarith
      have hle : (100 : ℝ) * 2 ^ (-(k : ℝ) / 20) ≤ 100 := by nlinarith
      calc ⌊(100 : ℝ) * 2 ^ (-(k : ℝ) / 20)⌋₊
          ≤ ⌊(100 : ℝ)⌋₊ := Nat.floor_mono hle
        _ = 100 := by simp
    · exact (hkey _).mp (Nat.floor_le hxpos.le)

end Vibe
